import Mathlib

/-!
Verification of the custom-element-boilerplate-setup scripts.

The repository is a one-shot CLI that rewrites a placeholder identifier
throughout a fixed file manifest.  Two variants of the script exist in the
repository: `main.js` and a second variant (called `P2` below) that splits
the replacement map into filename/contents parts and carries an extra
`fileSuffix` naming key.  Definitions below are shallow embeddings of the
JavaScript source; strings are modelled through their character lists, and
the ASCII fragment of JavaScript case conversion is modelled by explicit
character tables.
-/

namespace CustomElementSetup

/-! ## Character classes and ASCII case maps -/

/-- The characters matched by the regex character class A-Z. -/
def upperAsciiChars : List Char :=
  ['A','B','C','D','E','F','G','H','I','J','K','L','M',
   'N','O','P','Q','R','S','T','U','V','W','X','Y','Z']

/-- Lowercase ASCII letters. -/
def lowerAsciiChars : List Char :=
  ['a','b','c','d','e','f','g','h','i','j','k','l','m',
   'n','o','p','q','r','s','t','u','v','w','x','y','z']

/-- ASCII digits. -/
def digitAsciiChars : List Char :=
  ['0','1','2','3','4','5','6','7','8','9']

/-- ASCII alphanumeric characters. -/
def alnumAsciiChars : List Char :=
  upperAsciiChars ++ lowerAsciiChars ++ digitAsciiChars

/-- ASCII fragment of the JavaScript toLowerCase on a single character. -/
def jsCharLower : Char → Char
  | 'A' => 'a' | 'B' => 'b' | 'C' => 'c' | 'D' => 'd' | 'E' => 'e' | 'F' => 'f'
  | 'G' => 'g' | 'H' => 'h' | 'I' => 'i' | 'J' => 'j' | 'K' => 'k' | 'L' => 'l'
  | 'M' => 'm' | 'N' => 'n' | 'O' => 'o' | 'P' => 'p' | 'Q' => 'q' | 'R' => 'r'
  | 'S' => 's' | 'T' => 't' | 'U' => 'u' | 'V' => 'v' | 'W' => 'w' | 'X' => 'x'
  | 'Y' => 'y' | 'Z' => 'z'
  | c => c

/-- ASCII fragment of the JavaScript toUpperCase on a single character. -/
def jsCharUpper : Char → Char
  | 'a' => 'A' | 'b' => 'B' | 'c' => 'C' | 'd' => 'D' | 'e' => 'E' | 'f' => 'F'
  | 'g' => 'G' | 'h' => 'H' | 'i' => 'I' | 'j' => 'J' | 'k' => 'K' | 'l' => 'L'
  | 'm' => 'M' | 'n' => 'N' | 'o' => 'O' | 'p' => 'P' | 'q' => 'Q' | 'r' => 'R'
  | 's' => 'S' | 't' => 'T' | 'u' => 'U' | 'v' => 'V' | 'w' => 'W' | 'x' => 'X'
  | 'y' => 'Y' | 'z' => 'Z'
  | c => c

/-- Whitespace characters removed by the JavaScript String.prototype.trim
(ASCII fragment). -/
def isJsSpace (c : Char) : Bool :=
  c == ' ' || c == '\t' || c == '\n' || c == '\r' || c == '\x0b' || c == '\x0c'

/-! ## Text manipulation helpers of the source -/

/-- Source ucFirst: empty text is returned unchanged, otherwise the first
character is uppercased (text 0 toUpperCase, rest unchanged). -/
def ucFirst (text : String) : String :=
  match text.data with
  | [] => text
  | c :: rest => String.mk (jsCharUpper c :: rest)

/-- Source lcFirst: empty text is returned unchanged, otherwise the first
character is lowercased. -/
def lcFirst (text : String) : String :=
  match text.data with
  | [] => text
  | c :: rest => String.mk (jsCharLower c :: rest)

/-- JavaScript String.prototype.trim on both ends. -/
def jsTrim (text : String) : String :=
  String.mk (((text.data.dropWhile isJsSpace).reverse.dropWhile isJsSpace).reverse)

/-- JavaScript s.slice(0, -n) for a Nat n.  In JavaScript the negation of 0
is 0, so n = 0 selects slice(0, 0), the empty string; for positive n the
last n characters are dropped (clamped at the empty string). -/
def jsSliceZeroNeg (s : String) (n : Nat) : String :=
  if n = 0 then "" else String.mk (s.data.take (s.data.length - n))

/-- Source trimSuffix of main.js: when text ends with the suffix, the final
suffix length characters are sliced off via slice(0, -length). -/
def trimSuffix (text suffix : String) : String :=
  if suffix.data.isSuffixOf text.data then jsSliceZeroNeg text suffix.data.length
  else text

/-- The JavaScript or operator on strings: the empty string is falsy. -/
def jsOrElse (a b : String) : String :=
  if a = "" then b else a

/-! ## Regex escaping and the literal-regex fragment -/

/-- Characters escaped by the main.js escapeRegex character class. -/
def mainEscapeChars : List Char :=
  ['/', '-', '\\', '^', '$', '*', '+', '?', '.', '(', ')', '|', '[', ']',
   '\x7b', '\x7d']

/-- Characters escaped by the P2 variant escapeRegex character class, which
additionally covers angle brackets. -/
def p2EscapeChars : List Char :=
  ['/', '-', '\\', '^', '$', '*', '+', '?', '.', '(', ')', '|', '[', ']',
   '\x7b', '\x7d', '<', '>']

/-- Replace every character in the given class by a backslash followed by
the character, the global replacement performed by escapeRegex. -/
def escapeExpand (special : List Char) : List Char → List Char
  | [] => []
  | c :: rest =>
      (if c ∈ special then ['\\', c] else [c]) ++ escapeExpand special rest

/-- Source escapeRegex of main.js. -/
def escapeRegex (text : String) : String :=
  String.mk (escapeExpand mainEscapeChars text.data)

/-- Source escapeRegex of the P2 variant: guards the empty string and also
escapes angle brackets. -/
def escapeRegexP2 (text : String) : String :=
  if text = "" then text else String.mk (escapeExpand p2EscapeChars text.data)

/-- Characters that carry special meaning at the top level of a JavaScript
regular expression.  A pattern containing one of these unescaped is not a
plain literal; note that hyphen, slash and angle brackets are not special
at the top level. -/
def regexSpecials : List Char :=
  ['\\', '^', '$', '.', '|', '?', '*', '+', '(', ')', '[', ']', '\x7b', '\x7d']

/-- Interpret a regex source string in the literal fragment: a sequence of
ordinary characters and identity escapes denotes the literal string of
those characters; any unescaped special character falls outside the
fragment and yields none. -/
def parseLitRegex : List Char → Option (List Char)
  | [] => some []
  | c :: rest =>
      if c = '\\' then
        match rest with
        | [] => none
        | d :: rest2 => (parseLitRegex rest2).map (fun l => d :: l)
      else if c ∈ regexSpecials then none
      else (parseLitRegex rest).map (fun l => c :: l)

/-- One global literal replacement pass of JavaScript String.prototype
replace: scans left to right, replacing each non-overlapping occurrence of
the pattern, and for the empty pattern inserts the replacement at every
position.  The fuel argument only bounds the recursion; it is set to one
more than the text length by jsReplaceAllChars, which every step consumes
at least one character against. -/
def replaceAllFuel (pat rep : List Char) : Nat → List Char → List Char
  | 0, s => s
  | Nat.succ n, s =>
      match s with
      | [] => if pat.isEmpty then rep else []
      | c :: rest =>
          if pat.isEmpty then rep ++ c :: replaceAllFuel pat rep n rest
          else if pat.isPrefixOf (c :: rest) then
            rep ++ replaceAllFuel pat rep n (List.drop (pat.length - 1) rest)
          else c :: replaceAllFuel pat rep n rest

/-- Global literal replacement on character lists. -/
def jsReplaceAllChars (pat rep s : List Char) : List Char :=
  replaceAllFuel pat rep (s.length + 1) s

/-- JavaScript text.replace(new RegExp(pattern, g), rep) restricted to the
literal-regex fragment: the pattern source is interpreted by parseLitRegex
and the denoted literal is replaced globally.  Patterns outside the
fragment give none. -/
def jsRegexReplaceAllG (pattern rep text : String) : Option String :=
  (parseLitRegex pattern.data).map
    (fun lit => String.mk (jsReplaceAllChars lit rep.data text.data))

/-- Source replaceStringByMapParts of main.js: folds the ordered map over
the template string, escaping each key with escapeRegex and replacing it
globally, the output of each substitution feeding the next. -/
def replaceStringByMapParts (templateString : String)
    (replacementMap : List (String × String)) : Option String :=
  replacementMap.foldlM
    (fun acc kv => jsRegexReplaceAllG (escapeRegex kv.fst) kv.snd acc)
    templateString

/-- The P2 variant of replaceStringByMapParts, using the P2 escapeRegex. -/
def replaceStringByMapPartsP2 (templateString : String)
    (replacementMap : List (String × String)) : Option String :=
  replacementMap.foldlM
    (fun acc kv => jsRegexReplaceAllG (escapeRegexP2 kv.fst) kv.snd acc)
    templateString

/-- The pure sequential-chaining description of replaceStringByMapParts:
a left fold of plain literal global replacement. -/
def replacePure (t : String) (m : List (String × String)) : String :=
  m.foldl (fun acc kv => String.mk (jsReplaceAllChars kv.fst.data kv.snd.data acc.data)) t

/-! ## Naming keys and the naming deriver -/

/-- The naming key record of main.js: file, tag, tagName, className and
suffix. -/
structure CustomElementKeysMain where
  file : String
  tag : String
  tagName : String
  className : String
  suffix : String
deriving DecidableEq

/-- The naming key record of the P2 variant, which additionally carries a
fileSuffix. -/
structure CustomElementKeysP2 where
  file : String
  fileSuffix : String
  tag : String
  tagName : String
  className : String
  suffix : String
deriving DecidableEq

/-- The frozen source naming keys of main.js. -/
def fromCustomElementKey : CustomElementKeysMain :=
  { file := "custom-element"
    tag := "custom-element"
    tagName := "CUSTOM-ELEMENT"
    className := "CustomElement"
    suffix := "Element" }

/-- The frozen source naming keys of the P2 variant. -/
def fromCustomElementKeyP2 : CustomElementKeysP2 :=
  { file := "custom-element"
    fileSuffix := "element"
    tag := "custom-element"
    tagName := "CUSTOM-ELEMENT"
    className := "CustomElement"
    suffix := "Element" }

/-- Global replacement of every character matched by the regex class A-Z by
a hyphen followed by its lowercase form; this is the replace call computing
the dash-case form inside calculateTargetCustomElementKeysByClassName. -/
def dashExpand : List Char → List Char
  | [] => []
  | c :: rest =>
      (if c ∈ upperAsciiChars then ['-', jsCharLower c] else [c]) ++ dashExpand rest

/-- The dash-case derivation of the source: lowercase the first character,
then replace every remaining uppercase ASCII letter by a hyphen and its
lowercase form. -/
def dashCaseOf (targetClassName : String) : String :=
  String.mk (dashExpand (lcFirst targetClassName).data)

/-- ASCII fragment of JavaScript toUpperCase on a whole string. -/
def jsToUpperCase (s : String) : String :=
  String.mk (s.data.map jsCharUpper)

/-- Source calculateTargetCustomElementKeysByClassName of main.js. -/
def calculateTargetCustomElementKeysByClassName
    (targetClassName : String) : CustomElementKeysMain :=
  let dashCase := dashCaseOf targetClassName
  { file := dashCase
    tag := dashCase
    tagName := jsToUpperCase dashCase
    className := targetClassName
    suffix := fromCustomElementKey.suffix }

/-- Source calculateTargetCustomElementKeysByClassName of the P2 variant,
whose fileSuffix field is the lowercased source suffix. -/
def calculateTargetCustomElementKeysByClassNameP2
    (targetClassName : String) : CustomElementKeysP2 :=
  let dashCase := dashCaseOf targetClassName
  { file := dashCase
    fileSuffix := lcFirst fromCustomElementKeyP2.suffix
    tag := dashCase
    tagName := jsToUpperCase dashCase
    className := targetClassName
    suffix := fromCustomElementKeyP2.suffix }

/-- Split on hyphens, returning the first segment and the remaining
segments; together they are the result of the JavaScript split on a
hyphen, which always yields at least one (possibly empty) segment. -/
def splitDash : List Char → List Char × List (List Char)
  | [] => ([], [])
  | c :: rest =>
      let p := splitDash rest
      if c = '-' then ([], p.fst :: p.snd) else (c :: p.fst, p.snd)

/-- JavaScript split on a hyphen, on character lists. -/
def splitOnDash (l : List Char) : List (List Char) :=
  (splitDash l).fst :: (splitDash l).snd

/-- ucFirst on a character list. -/
def ucFirstL : List Char → List Char
  | [] => []
  | c :: rest => jsCharUpper c :: rest

/-- Source calculateCustomElementNameFromRepositoryName: split the name on
hyphens, uppercase the first letter of every segment, concatenate. -/
def calculateCustomElementNameFromRepositoryName (repositoryName : String) : String :=
  String.mk (((splitOnDash repositoryName.data).map ucFirstL).flatten)

/-- Words joined by single hyphens, the shape of repository names the
specification quantifies over. -/
def joinDash : List (List Char) → List Char
  | [] => []
  | [w] => w
  | w :: v :: ws => w ++ '-' :: joinDash (v :: ws)

/-- PascalCase validity used by the round-trip property: nonempty, leading
uppercase ASCII letter, all characters ASCII alphanumeric. -/
def isPascalString (s : String) : Bool :=
  match s.data with
  | [] => false
  | c :: rest =>
      decide (c ∈ upperAsciiChars) && rest.all (fun d => decide (d ∈ alnumAsciiChars))

/-! ## Prompt answer -/

/-- The class name established from the prompt in main.js: the trimmed
answer is ucFirst-ed, an empty result falls back to the candidate, and the
fixed suffix is trimmed from whichever value was chosen. -/
def answerClassName (promptAnswer candidate : String) : String :=
  trimSuffix (jsOrElse (ucFirst (jsTrim promptAnswer)) candidate)
    fromCustomElementKey.suffix

/-! ## Path helpers -/

/-- Node path.normalize, modelled on the already-normal inputs the program
builds (an absolute working directory joined with a relative manifest path
containing no dot segments and no repeated separators), on which
normalization is the identity. -/
def jsNormalize (p : String) : String := p

/-- Drop trailing separators, the first step of basename and dirname. -/
def stripTrailingSlashes (l : List Char) : List Char :=
  (l.reverse.dropWhile (fun c => c == '/')).reverse

/-- Node path.basename for POSIX separators. -/
def jsBasename (p : String) : String :=
  String.mk (((stripTrailingSlashes p.data).reverse.takeWhile (fun c => c != '/')).reverse)

/-- Node path.dirname for POSIX separators. -/
def jsDirname (p : String) : String :=
  let t := stripTrailingSlashes p.data
  let pre := (t.reverse.dropWhile (fun c => c != '/')).reverse
  if pre.isEmpty then "."
  else
    let d := stripTrailingSlashes pre
    if d.isEmpty then "/" else String.mk d

/-- Node path.extname applied to a basename: the substring from the last
dot on, empty when there is no dot or the only dot is the leading
character of a dotfile. -/
def jsExtname (basename : String) : String :=
  let b := basename.data
  let afterRev := b.reverse.takeWhile (fun c => c != '.')
  if b.length ≤ afterRev.length then ""
  else if b.length - 1 - afterRev.length = 0 then ""
  else String.mk ('.' :: afterRev.reverse)

/-- Resolution of a possibly relative path against the working directory,
as the Node file-system calls do for relative arguments. -/
def resolvePath (cwd p : String) : String :=
  match p.data with
  | '/' :: _ => p
  | _ => jsNormalize (cwd ++ "/" ++ p)

/-- Source getFileFullPath of the P2 variant. -/
def getFileFullPath (cwd relativePath : String) : String :=
  jsNormalize (cwd ++ "/" ++ relativePath)

/-- Source calculateTargetFileFullPath of main.js: normalize the working
directory joined with the manifest path, split it into directory, basename
and extension, apply the substitution map to the extensionless file name
and reattach directory and extension. -/
def calculateTargetFileFullPath (cwd fromFilePath : String)
    (replacementMap : List (String × String)) : Option String :=
  let fromFullPath := jsNormalize (cwd ++ "/" ++ fromFilePath)
  let directory := jsDirname fromFullPath
  let basename := jsBasename fromFullPath
  let extension := jsExtname basename
  let fileName := jsSliceZeroNeg basename extension.data.length
  (replaceStringByMapParts fileName replacementMap).map
    (fun fileNameReplacement => directory ++ "/" ++ fileNameReplacement ++ extension)

/-- Source calculateTargetFileFullPath of the P2 variant, which receives
the already computed full path. -/
def calculateTargetFileFullPathP2 (fromFullPath : String)
    (replacementMap : List (String × String)) : Option String :=
  let directory := jsDirname fromFullPath
  let basename := jsBasename fromFullPath
  let extension := jsExtname basename
  let fileName := jsSliceZeroNeg basename extension.data.length
  (replaceStringByMapPartsP2 fileName replacementMap).map
    (fun fileNameReplacement => directory ++ "/" ++ fileNameReplacement ++ extension)

/-- The pure value of either calculateTargetFileFullPath variant. -/
def calculateTargetFileFullPathPure (fromFullPath : String)
    (replacementMap : List (String × String)) : String :=
  jsDirname fromFullPath ++ "/"
    ++ replacePure
        (jsSliceZeroNeg (jsBasename fromFullPath)
          (jsExtname (jsBasename fromFullPath)).data.length)
        replacementMap
    ++ jsExtname (jsBasename fromFullPath)

/-! ## File-system model and the updater loops -/

/-- A file system is a finite map from full path to contents, modelled as
an association list. -/
abbrev FileSystem := List (String × String)

/-- Node fs.existsSync. -/
def fsExists (fsys : FileSystem) (p : String) : Bool :=
  fsys.any (fun e => e.fst == p)

/-- Contents of a file, when present. -/
def fsRead (fsys : FileSystem) (p : String) : Option String :=
  (fsys.find? (fun e => e.fst == p)).map Prod.snd

/-- Remove a path from the file system. -/
def fsRemove (fsys : FileSystem) (p : String) : FileSystem :=
  fsys.filter (fun e => e.fst != p)

/-- Source replaceFileName: a silent no-op when the source path does not
exist, otherwise an fs.rename moving the contents to the target path. -/
def replaceFileName (fsys : FileSystem) (fromFullPath targetFullPath : String) :
    FileSystem :=
  if fsExists fsys fromFullPath then
    match fsRead fsys fromFullPath with
    | some contents =>
        (targetFullPath, contents) :: fsRemove (fsRemove fsys fromFullPath) targetFullPath
    | none => fsys
  else fsys

/-- Source replaceFileContents of main.js: a silent no-op when the path
does not exist, otherwise the contents are read, rewritten through
replaceStringByMapParts and written back (truncate then write). -/
def replaceFileContents (fsys : FileSystem) (fileFullPath : String)
    (replacementMap : List (String × String)) : Option FileSystem :=
  if fsExists fsys fileFullPath then
    match fsRead fsys fileFullPath with
    | some contents =>
        (replaceStringByMapParts contents replacementMap).map
          (fun updated => (fileFullPath, updated) :: fsRemove fsys fileFullPath)
    | none => some fsys
  else some fsys

/-- The P2 variant of replaceFileContents, rewriting with the P2
substitution engine. -/
def replaceFileContentsP2 (fsys : FileSystem) (fileFullPath : String)
    (replacementMap : List (String × String)) : Option FileSystem :=
  if fsExists fsys fileFullPath then
    match fsRead fsys fileFullPath with
    | some contents =>
        (replaceStringByMapPartsP2 contents replacementMap).map
          (fun updated => (fileFullPath, updated) :: fsRemove fsys fileFullPath)
    | none => some fsys
  else some fsys

/-- The per-file operation flags of the manifest. -/
inductive SubstKind
  | filename
  | contents
deriving DecidableEq

/-- A file operation issued by an updater loop iteration, recorded with the
paths it addresses. -/
inductive FileOp
  | rename (src dst : String)
  | rewrite (p : String)
deriving DecidableEq

/-- The operations issued by one iteration of the main.js update loop, in
order: the target path is computed first, then the rename (when flagged)
moves the manifest path to the target, then the contents rewrite (when
flagged) is applied at the target path. -/
def mainEntryOps (cwd rel : String) (flags : List SubstKind)
    (replacementMap : List (String × String)) : Option (List FileOp) :=
  (calculateTargetFileFullPath cwd rel replacementMap).map
    (fun target =>
      (if SubstKind.filename ∈ flags then [FileOp.rename (resolvePath cwd rel) target] else [])
        ++ (if SubstKind.contents ∈ flags then [FileOp.rewrite target] else []))

/-- The operations issued by one iteration of the P2 update loop, in order:
the contents rewrite (when flagged) is applied at the entry's own full
path, and only afterwards (when flagged) is the file renamed from that
path to the computed target. -/
def p2EntryOps (cwd rel : String) (flags : List SubstKind)
    (_contentsMap filenameMap : List (String × String)) : Option (List FileOp) :=
  let fromFullPath := getFileFullPath cwd rel
  let contentsOps :=
    if SubstKind.contents ∈ flags then [FileOp.rewrite fromFullPath] else []
  if SubstKind.filename ∈ flags then
    (calculateTargetFileFullPathP2 fromFullPath filenameMap).map
      (fun target => contentsOps ++ [FileOp.rename fromFullPath target])
  else some contentsOps

/-- One iteration of the main.js update loop acting on the file system. -/
def mainLoopStep (cwd : String) (replacementMap : List (String × String))
    (fsys : FileSystem) (entry : String × List SubstKind) : Option FileSystem :=
  (calculateTargetFileFullPath cwd entry.fst replacementMap).bind
    (fun target =>
      let fsys1 :=
        if SubstKind.filename ∈ entry.snd then
          replaceFileName fsys (resolvePath cwd entry.fst) target
        else fsys
      if SubstKind.contents ∈ entry.snd then
        replaceFileContents fsys1 target replacementMap
      else some fsys1)

/-- One iteration of the P2 update loop acting on the file system. -/
def p2LoopStep (cwd : String) (contentsMap filenameMap : List (String × String))
    (fsys : FileSystem) (entry : String × List SubstKind) : Option FileSystem :=
  let fromFullPath := getFileFullPath cwd entry.fst
  (if SubstKind.contents ∈ entry.snd then
      replaceFileContentsP2 fsys fromFullPath contentsMap
    else some fsys).bind
    (fun fsys1 =>
      if SubstKind.filename ∈ entry.snd then
        (calculateTargetFileFullPathP2 fromFullPath filenameMap).map
          (fun target => replaceFileName fsys1 fromFullPath target)
      else some fsys1)

/-- The whole P2 update loop over the manifest. -/
def p2RunLoop (cwd : String) (contentsMap filenameMap : List (String × String))
    (fsys : FileSystem) (entries : List (String × List SubstKind)) :
    Option FileSystem :=
  entries.foldlM (p2LoopStep cwd contentsMap filenameMap) fsys

/-! ## Helper lemmas -/

theorem string_eq_empty_of_data_nil {s : String} (h : s.data = []) : s = "" := by
  cases s with
  | mk d => cases h; rfl

theorem string_append_empty (s : String) : s ++ "" = s := by
  cases s with
  | mk d =>
      show String.mk (d ++ "".data) = String.mk d
      simp

theorem parseLitRegex_escapeExpand (special : List Char)
    (hs : ∀ c ∈ regexSpecials, c ∈ special) :
    ∀ l : List Char, parseLitRegex (escapeExpand special l) = some l := by
  intro l
  induction l with
  | nil => rfl
  | cons c rest ih =>
      by_cases hc : c ∈ special
      · simp [escapeExpand, hc, parseLitRegex, ih]
      · have hb : c ≠ '\\' := fun h => hc (h ▸ hs '\\' (by decide))
        have hr : c ∉ regexSpecials := fun h => hc (hs c h)
        have hexp : escapeExpand special (c :: rest) = c :: escapeExpand special rest := by
          simp [escapeExpand, hc]
        rw [hexp]
        unfold parseLitRegex
        simp [hb, hr, ih]

theorem escapeRegexP2_data (s : String) :
    (escapeRegexP2 s).data = escapeExpand p2EscapeChars s.data := by
  by_cases h : s = ""
  · subst h; rfl
  · simp [escapeRegexP2, h]

theorem replaceStringByMapParts_eq_pure (t : String) (m : List (String × String)) :
    replaceStringByMapParts t m = some (replacePure t m) := by
  induction m generalizing t with
  | nil => rfl
  | cons kv ms ih =>
      have hp : parseLitRegex (escapeRegex kv.fst).data = some kv.fst.data :=
        parseLitRegex_escapeExpand _ (by decide) _
      simp only [replaceStringByMapParts, List.foldlM_cons, jsRegexReplaceAllG, hp,
        Option.map_some', Option.some_bind, replacePure, List.foldl_cons]
      exact ih _

theorem replaceStringByMapPartsP2_eq_pure (t : String) (m : List (String × String)) :
    replaceStringByMapPartsP2 t m = some (replacePure t m) := by
  induction m generalizing t with
  | nil => rfl
  | cons kv ms ih =>
      have hp : parseLitRegex (escapeRegexP2 kv.fst).data = some kv.fst.data := by
        rw [escapeRegexP2_data]
        exact parseLitRegex_escapeExpand _ (by decide) _
      simp only [replaceStringByMapPartsP2, List.foldlM_cons, jsRegexReplaceAllG, hp,
        Option.map_some', Option.some_bind, replacePure, List.foldl_cons]
      exact ih _

theorem jsReplaceAllChars_nil (pat rep : List Char) (h : pat ≠ []) :
    jsReplaceAllChars pat rep [] = [] := by
  cases pat with
  | nil => exact absurd rfl h
  | cons a as => rfl

theorem replacePure_empty (m : List (String × String)) (hm : ∀ kv ∈ m, kv.fst ≠ "") :
    replacePure "" m = "" := by
  induction m with
  | nil => rfl
  | cons kv ms ih =>
      have h1 : kv.fst ≠ "" := hm kv (List.mem_cons_self _ _)
      have h2 : kv.fst.data ≠ [] := fun hd => h1 (string_eq_empty_of_data_nil hd)
      have hstep : jsReplaceAllChars kv.fst.data kv.snd.data ("" : String).data = [] := by
        have : ("" : String).data = [] := rfl
        rw [this]
        exact jsReplaceAllChars_nil _ _ h2
      have ihm : ∀ kv2 ∈ ms, kv2.fst ≠ "" := fun kv2 hkv2 => hm kv2 (List.mem_cons_of_mem _ hkv2)
      simp only [replacePure, List.foldl_cons, hstep]
      have : String.mk ([] : List Char) = "" := rfl
      rw [this]
      exact ih ihm

theorem calculateTargetFileFullPath_eq (cwd rel : String) (m : List (String × String)) :
    calculateTargetFileFullPath cwd rel m
      = some (calculateTargetFileFullPathPure (cwd ++ "/" ++ rel) m) := by
  simp [calculateTargetFileFullPath, calculateTargetFileFullPathPure, jsNormalize,
    replaceStringByMapParts_eq_pure]

theorem calculateTargetFileFullPathP2_eq (p : String) (m : List (String × String)) :
    calculateTargetFileFullPathP2 p m
      = some (calculateTargetFileFullPathPure p m) := by
  simp [calculateTargetFileFullPathP2, calculateTargetFileFullPathPure,
    replaceStringByMapPartsP2_eq_pure]

theorem upperLowerUpper : ∀ c ∈ upperAsciiChars, jsCharUpper (jsCharLower c) = c := by
  decide

theorem lowerOfUpperNotUpper : ∀ c ∈ upperAsciiChars, jsCharLower c ∉ upperAsciiChars := by
  decide

theorem lowerOfUpperNeDash : ∀ c ∈ upperAsciiChars, jsCharLower c ≠ '-' := by
  decide

theorem alnumNeDash : ∀ c ∈ alnumAsciiChars, c ≠ '-' := by
  decide

theorem splitDash_cons_dash (rest : List Char) :
    splitDash ('-' :: rest) = ([], (splitDash rest).fst :: (splitDash rest).snd) := by
  simp [splitDash]

theorem splitDash_cons_ne (c : Char) (rest : List Char) (h : c ≠ '-') :
    splitDash (c :: rest) = (c :: (splitDash rest).fst, (splitDash rest).snd) := by
  simp [splitDash, h]

theorem splitDash_dashExpand_restore (l : List Char)
    (h : ∀ c ∈ l, c ∈ alnumAsciiChars) :
    (splitDash (dashExpand l)).fst
      ++ (((splitDash (dashExpand l)).snd.map ucFirstL).flatten) = l := by
  induction l with
  | nil => rfl
  | cons c rest ih =>
      have hc := h c (List.mem_cons_self _ _)
      have hrest : ∀ d ∈ rest, d ∈ alnumAsciiChars :=
        fun d hd => h d (List.mem_cons_of_mem _ hd)
      by_cases hu : c ∈ upperAsciiChars
      · have h1 := lowerOfUpperNeDash c hu
        have h2 := upperLowerUpper c hu
        have hexp : dashExpand (c :: rest) = '-' :: jsCharLower c :: dashExpand rest := by
          simp [dashExpand, hu]
        rw [hexp, splitDash_cons_dash, splitDash_cons_ne _ _ h1]
        simpa [ucFirstL, h2] using ih hrest
      · have h1 := alnumNeDash c hc
        have hexp : dashExpand (c :: rest) = c :: dashExpand rest := by
          simp [dashExpand, hu]
        rw [hexp, splitDash_cons_ne _ _ h1]
        simpa using ih hrest

theorem splitDash_append_dashFree (w l : List Char) (h : '-' ∉ w) :
    splitDash (w ++ l) = (w ++ (splitDash l).fst, (splitDash l).snd) := by
  induction w with
  | nil => simp
  | cons c w2 ih =>
      have hc : c ≠ '-' := fun e => h (e ▸ List.mem_cons_self _ _)
      have h2 : '-' ∉ w2 := fun hm => h (List.mem_cons_of_mem _ hm)
      simp [splitDash_cons_ne _ _ hc, ih h2]

theorem splitOnDash_joinDash (ws : List (List Char)) (hne : ws ≠ [])
    (h : ∀ w ∈ ws, '-' ∉ w) :
    splitOnDash (joinDash ws) = ws := by
  induction ws with
  | nil => exact absurd rfl hne
  | cons w ws2 ih =>
      have hw : '-' ∉ w := h w (List.mem_cons_self _ _)
      cases ws2 with
      | nil =>
          have hs := splitDash_append_dashFree w [] hw
          simp only [List.append_nil,
            show splitDash ([] : List Char) = ([], []) from rfl] at hs
          simp [joinDash, splitOnDash, hs]
      | cons v ws3 =>
          have h2 : ∀ u ∈ v :: ws3, '-' ∉ u :=
            fun u hu => h u (List.mem_cons_of_mem _ hu)
          have step : joinDash (w :: v :: ws3) = w ++ '-' :: joinDash (v :: ws3) := rfl
          rw [step]
          have hs := splitDash_append_dashFree w ('-' :: joinDash (v :: ws3)) hw
          rw [splitDash_cons_dash] at hs
          have ihv := ih (by simp) h2
          simp only [splitOnDash] at ihv ⊢
          rw [hs]
          simp only [List.append_nil]
          rw [ihv]

theorem ucFirst_ne_empty {s : String} (h : s ≠ "") : ucFirst s ≠ "" := by
  cases s with
  | mk d =>
      cases d with
      | nil => exact absurd rfl h
      | cons c rest =>
          intro he
          have : (jsCharUpper c :: rest) = ("" : String).data := congrArg String.data he
          simp at this

theorem dashExpand_append (a b : List Char) :
    dashExpand (a ++ b) = dashExpand a ++ dashExpand b := by
  induction a with
  | nil => rfl
  | cons c rest ih => simp [dashExpand, ih]

theorem dashExpand_upperRun (us : List Char) (h : ∀ c ∈ us, c ∈ upperAsciiChars) :
    dashExpand us = (us.map (fun c => ['-', jsCharLower c])).flatten := by
  induction us with
  | nil => rfl
  | cons c rest ih =>
      have hc := h c (List.mem_cons_self _ _)
      have hrest : ∀ d ∈ rest, d ∈ upperAsciiChars :=
        fun d hd => h d (List.mem_cons_of_mem _ hd)
      simp [dashExpand, hc, ih hrest]

theorem pascalAssemble (c : Char) (rest : List Char)
    (hc : c ∈ upperAsciiChars) (hrest : ∀ x ∈ rest, x ∈ alnumAsciiChars) :
    ((splitOnDash (jsCharLower c :: dashExpand rest)).map ucFirstL).flatten = c :: rest := by
  have hd : jsCharLower c ≠ '-' := lowerOfUpperNeDash c hc
  have hu : jsCharUpper (jsCharLower c) = c := upperLowerUpper c hc
  have key := splitDash_dashExpand_restore rest hrest
  simp only [splitOnDash, splitDash_cons_ne _ _ hd, List.map_cons, List.flatten_cons]
  simp only [ucFirstL, hu, List.cons_append]
  rw [key]

/-! ## Claims -/

/-- C1: replaceStringByMapParts applies the pattern and replacement pairs
strictly in list order, feeding the output of each substitution into the
next, so the whole computation is the sequential left fold replacePure; in
particular the list a to b then b to c applied to a gives c, not b. -/
theorem claim_C1 :
    (∀ (t : String) (m : List (String × String)),
        replaceStringByMapParts t m = some (replacePure t m)) ∧
    (∀ (t : String) (kv : String × String) (m : List (String × String)),
        replacePure t (kv :: m) = replacePure (replacePure t [kv]) m) ∧
    replaceStringByMapParts "a" [("a", "b"), ("b", "c")] = some "c" ∧
    ("c" : String) ≠ "b" :=
  ⟨replaceStringByMapParts_eq_pure, fun _ _ _ => rfl, by decide, by decide⟩

/-- C2 counterexample: in the main.js update loop, an entry carrying both
flags issues the rename first and then rewrites the contents at the
post-rename target path, which differs from the pre-rename path; this
falsifies the claim that the contents rewrite happens before the rename
and reads from the pre-rename path. -/
theorem claim_C2_counterexample :
    mainEntryOps "/repo" "src/custom-element.ts"
        [SubstKind.filename, SubstKind.contents] [("custom-element", "foo-bar")]
      = some [FileOp.rename "/repo/src/custom-element.ts" "/repo/src/foo-bar.ts",
              FileOp.rewrite "/repo/src/foo-bar.ts"] ∧
    ("/repo/src/foo-bar.ts" : String) ≠ "/repo/src/custom-element.ts" := by
  constructor <;> decide

/-- C2 amended: in the P2 update loop, every entry carrying both flags
rewrites the contents first, reading and writing the entry's own
pre-rename path, and only afterwards renames the file to the computed
target; in the main.js loop the rename comes first and the rewrite is
addressed to the post-rename target path. -/
theorem claim_C2 (cwd rel : String) (contentsMap filenameMap : List (String × String))
    (flags : List SubstKind) (hf : SubstKind.filename ∈ flags)
    (hc : SubstKind.contents ∈ flags) :
    p2EntryOps cwd rel flags contentsMap filenameMap
      = some [FileOp.rewrite (getFileFullPath cwd rel),
              FileOp.rename (getFileFullPath cwd rel)
                (calculateTargetFileFullPathPure (getFileFullPath cwd rel) filenameMap)] := by
  simp [p2EntryOps, hf, hc, calculateTargetFileFullPathP2_eq]

theorem claim_C2_witness :
    SubstKind.filename ∈ [SubstKind.filename, SubstKind.contents] ∧
    p2EntryOps "/repo" "src/custom-element.ts"
        [SubstKind.filename, SubstKind.contents] [] [("custom-element", "foo-bar")]
      = some [FileOp.rewrite (getFileFullPath "/repo" "src/custom-element.ts"),
              FileOp.rename (getFileFullPath "/repo" "src/custom-element.ts")
                (calculateTargetFileFullPathPure
                  (getFileFullPath "/repo" "src/custom-element.ts")
                  [("custom-element", "foo-bar")])] :=
  ⟨by decide,
   claim_C2 "/repo" "src/custom-element.ts" [] [("custom-element", "foo-bar")]
     [SubstKind.filename, SubstKind.contents] (by decide) (by decide)⟩

/-- C3 counterexample: the main.js escapeRegex leaves the angle bracket
unescaped, so the set of escaped characters does not include the angle
brackets the claim demands at minimum. -/
theorem claim_C3_counterexample :
    escapeRegex "<" = "<" ∧ ("<" : String) ≠ "\\<" := by
  constructor <;> decide

/-- C3 amended: the main.js escapeRegex escapes slash, hyphen, backslash,
caret, dollar, star, plus, question mark, dot, parentheses, pipe, square
brackets and curly brackets, but not the angle brackets, which only the P2
variant escapes in addition; since angle brackets carry no special regex
meaning, the escaped pattern of either variant still denotes exactly the
literal pattern string, so a pattern literally containing custom-element
replaces exactly that substring and its hyphen is not a regex operator. -/
theorem claim_C3 :
    (∀ c ∈ mainEscapeChars, escapeRegex (String.mk [c]) = String.mk ['\\', c]) ∧
    (∀ s : String, parseLitRegex (escapeRegex s).data = some s.data) ∧
    (∀ s : String, parseLitRegex (escapeRegexP2 s).data = some s.data) ∧
    jsRegexReplaceAllG (escapeRegex "custom-element") "x-y" "see <custom-element> tag"
      = some "see <x-y> tag" ∧
    jsRegexReplaceAllG (escapeRegex "custom-element") "x" "customelement custom_element"
      = some "customelement custom_element" :=
  ⟨by decide,
   fun s => parseLitRegex_escapeExpand _ (by decide) _,
   fun s => by
     rw [escapeRegexP2_data]
     exact parseLitRegex_escapeExpand _ (by decide) _,
   by decide, by decide⟩

theorem claim_C3_witness :
    '-' ∈ mainEscapeChars ∧ escapeRegex (String.mk ['-']) = String.mk ['\\', '-'] :=
  ⟨by decide, claim_C3.1 '-' (by decide)⟩

/-- C4 counterexample: a blank prompt answer with the candidate
CustomElement yields Custom, because the fixed suffix is trimmed from the
candidate fallback as well; the claim that blank input uses exactly the
candidate is false. -/
theorem claim_C4_counterexample :
    jsTrim "" = "" ∧ answerClassName "" "CustomElement" = "Custom" ∧
    ("Custom" : String) ≠ "CustomElement" := by
  refine ⟨by decide, by decide, by decide⟩

/-- C4 amended: blank input after trimming falls back to the candidate with
one trailing occurrence of the fixed suffix removed when present; non-blank
input is trimmed, has its first character uppercased by ucFirst, and then
has one trailing occurrence of the fixed suffix removed when present. -/
theorem claim_C4 (promptAnswer candidate : String) :
    (jsTrim promptAnswer = "" →
        answerClassName promptAnswer candidate
          = trimSuffix candidate fromCustomElementKey.suffix) ∧
    (jsTrim promptAnswer ≠ "" →
        answerClassName promptAnswer candidate
          = trimSuffix (ucFirst (jsTrim promptAnswer)) fromCustomElementKey.suffix) := by
  constructor
  · intro h
    rw [answerClassName, h]
    rfl
  · intro h
    rw [answerClassName, jsOrElse, if_neg (ucFirst_ne_empty h)]

theorem claim_C4_witness :
    jsTrim " fooElement " ≠ "" ∧
    answerClassName " fooElement " "X"
      = trimSuffix (ucFirst (jsTrim " fooElement ")) fromCustomElementKey.suffix :=
  ⟨by decide, (claim_C4 " fooElement " "X").2 (by decide)⟩

/-- C5: for every PascalCase class name, the tag field computed by
calculateTargetCustomElementKeysByClassName round-trips: splitting the tag
on hyphens, capitalizing the first letter of each segment and
concatenating, which is exactly what
calculateCustomElementNameFromRepositoryName does, reproduces the class
name. -/
theorem claim_C5 (targetClassName : String)
    (h : isPascalString targetClassName = true) :
    calculateCustomElementNameFromRepositoryName
      ((calculateTargetCustomElementKeysByClassName targetClassName).tag)
      = targetClassName := by
  obtain ⟨d⟩ := targetClassName
  cases d with
  | nil => simp [isPascalString] at h
  | cons c rest =>
      simp only [isPascalString, Bool.and_eq_true, decide_eq_true_eq,
        List.all_eq_true] at h
      obtain ⟨hc, hrest⟩ := h
      have hrest2 : ∀ x ∈ rest, x ∈ alnumAsciiChars := fun x hx => by
        simpa using hrest x hx
      have hl : jsCharLower c ∉ upperAsciiChars := lowerOfUpperNotUpper c hc
      have htag : (calculateTargetCustomElementKeysByClassName (String.mk (c :: rest))).tag
          = String.mk (jsCharLower c :: dashExpand rest) := by
        have hexp : dashExpand (jsCharLower c :: rest)
            = jsCharLower c :: dashExpand rest := by
          simp [dashExpand, hl]
        simp [calculateTargetCustomElementKeysByClassName, dashCaseOf, lcFirst, hexp]
      rw [htag]
      show String.mk (((splitOnDash (jsCharLower c :: dashExpand rest)).map ucFirstL).flatten)
        = String.mk (c :: rest)
      exact congrArg String.mk (pascalAssemble c rest hc hrest2)

theorem claim_C5_witness :
    isPascalString "FooBar" = true ∧
    calculateCustomElementNameFromRepositoryName
      ((calculateTargetCustomElementKeysByClassName "FooBar").tag) = "FooBar" :=
  ⟨by decide, claim_C5 "FooBar" (by decide)⟩

/-- C6: deriving the target naming keys from the empty class name does not
fail; every derived field is the empty string, while the suffix keeps the
fixed value Element and, in the P2 variant that carries it, fileSuffix
keeps the value element. -/
theorem claim_C6 :
    calculateTargetCustomElementKeysByClassNameP2 ""
      = { file := "", fileSuffix := "element", tag := "", tagName := "",
          className := "", suffix := "Element" } ∧
    calculateTargetCustomElementKeysByClassName ""
      = { file := "", tag := "", tagName := "", className := "",
          suffix := "Element" } := by
  constructor <;> decide

/-- C7 counterexample: in the main.js loop the contents rewrite is
addressed to the computed target path rather than the entry's own path, so
a manifest entry whose path does not exist can still modify an existing
file at the target path: with the map a to b, the missing entry a.ts
rewrites the existing file b.ts. -/
theorem claim_C7_counterexample :
    fsExists [("/r/b.ts", "a")] (resolvePath "/r" "a.ts") = false ∧
    mainLoopStep "/r" [("a", "b")] [("/r/b.ts", "a")] ("a.ts", [SubstKind.contents])
      = some [("/r/b.ts", "b")] ∧
    ([("/r/b.ts", "b")] : FileSystem) ≠ [("/r/b.ts", "a")] := by
  refine ⟨by decide, by decide, by decide⟩

/-- C7 amended: replaceFileName and replaceFileContents are silent no-ops
when the path they receive does not exist, raising no error; the P2 loop
passes the entry's own full path to both operations, so a missing entry
leaves the file system unchanged and the fold continues with the next
manifest entry; in the main.js loop the contents rewrite is addressed to
the computed target path, so the no-op guarantee there needs the target
path to be missing as well. -/
theorem claim_C7 :
    (∀ (fsys : FileSystem) (p t : String),
        fsExists fsys p = false → replaceFileName fsys p t = fsys) ∧
    (∀ (fsys : FileSystem) (p : String) (m : List (String × String)),
        fsExists fsys p = false → replaceFileContents fsys p m = some fsys) ∧
    (∀ (fsys : FileSystem) (p : String) (m : List (String × String)),
        fsExists fsys p = false → replaceFileContentsP2 fsys p m = some fsys) ∧
    (∀ (cwd : String) (mc mf : List (String × String)) (fsys : FileSystem)
        (rel : String) (flags : List SubstKind),
        fsExists fsys (getFileFullPath cwd rel) = false →
        p2LoopStep cwd mc mf fsys (rel, flags) = some fsys) ∧
    (∀ (cwd : String) (mc mf : List (String × String)) (fsys : FileSystem)
        (e : String × List SubstKind) (rest : List (String × List SubstKind)),
        p2RunLoop cwd mc mf fsys (e :: rest)
          = (p2LoopStep cwd mc mf fsys e).bind
              (fun fsys2 => p2RunLoop cwd mc mf fsys2 rest)) := by
  refine ⟨?_, ?_, ?_, ?_, ?_⟩
  · intro fsys p t h
    simp [replaceFileName, h]
  · intro fsys p m h
    simp [replaceFileContents, h]
  · intro fsys p m h
    simp [replaceFileContentsP2, h]
  · intro cwd mc mf fsys rel flags h
    have hcont : (if SubstKind.contents ∈ flags then
        replaceFileContentsP2 fsys (getFileFullPath cwd rel) mc else some fsys)
        = some fsys := by
      by_cases hm : SubstKind.contents ∈ flags
      · simp [hm, replaceFileContentsP2, h]
      · simp [hm]
    by_cases hf : SubstKind.filename ∈ flags
    · simp [p2LoopStep, hcont, hf, calculateTargetFileFullPathP2_eq,
        replaceFileName, h]
    · simp [p2LoopStep, hcont, hf]
  · intro cwd mc mf fsys e rest
    rfl

theorem claim_C7_witness :
    fsExists ([] : FileSystem) "/r/x.ts" = false ∧
    replaceFileName ([] : FileSystem) "/r/x.ts" "/r/y.ts" = [] ∧
    replaceFileContents ([] : FileSystem) "/r/x.ts" [("a", "b")] = some [] ∧
    p2LoopStep "/r" [("a", "b")] [("a", "b")] []
      ("x.ts", [SubstKind.filename, SubstKind.contents]) = some [] :=
  ⟨by decide,
   claim_C7.1 [] "/r/x.ts" "/r/y.ts" (by decide),
   claim_C7.2.1 [] "/r/x.ts" [("a", "b")] (by decide),
   claim_C7.2.2.2.1 "/r" [("a", "b")] [("a", "b")] [] "x.ts"
     [SubstKind.filename, SubstKind.contents] (by decide)⟩

/-- C8: for repository names made of hyphen-free words joined by hyphens,
calculateCustomElementNameFromRepositoryName returns the concatenation of
the words with each first letter capitalized; empty segments contribute
nothing, as the double-hyphen example shows. -/
theorem claim_C8 :
    (∀ ws : List (List Char), ws ≠ [] → (∀ w ∈ ws, '-' ∉ w) →
        calculateCustomElementNameFromRepositoryName (String.mk (joinDash ws))
          = String.mk ((ws.map ucFirstL).flatten)) ∧
    calculateCustomElementNameFromRepositoryName "custom-element-boilerplate"
      = "CustomElementBoilerplate" ∧
    calculateCustomElementNameFromRepositoryName "a--b" = "AB" := by
  refine ⟨?_, by decide, by decide⟩
  intro ws hne h
  have hsplit := splitOnDash_joinDash ws hne h
  show String.mk (((splitOnDash (joinDash ws)).map ucFirstL).flatten) = _
  rw [hsplit]

theorem claim_C8_witness :
    ([['a', 'b'], ['c']] : List (List Char)) ≠ [] ∧
    calculateCustomElementNameFromRepositoryName (String.mk (joinDash [['a', 'b'], ['c']]))
      = String.mk (([['a', 'b'], ['c']].map ucFirstL).flatten) :=
  ⟨by decide, claim_C8.1 [['a', 'b'], ['c']] (by decide) (by decide)⟩

/-- C9: when the basename of the manifest path has no extension, the
slice with the negated extension length selects slice of zero and zero,
the empty string, so the substitution map is applied to an empty file name
and the computed target path is the directory followed by the separator
only. -/
theorem claim_C9 (cwd rel : String) (m : List (String × String))
    (hext : jsExtname (jsBasename (jsNormalize (cwd ++ "/" ++ rel))) = "")
    (hm : ∀ kv ∈ m, kv.fst ≠ "") :
    jsSliceZeroNeg (jsBasename (jsNormalize (cwd ++ "/" ++ rel)))
        (jsExtname (jsBasename (jsNormalize (cwd ++ "/" ++ rel)))).data.length = "" ∧
    calculateTargetFileFullPath cwd rel m
      = some (jsDirname (jsNormalize (cwd ++ "/" ++ rel)) ++ "/") := by
  have hid : jsNormalize (cwd ++ "/" ++ rel) = cwd ++ "/" ++ rel := rfl
  rw [hid] at hext
  constructor
  · rw [hid, hext]
    rfl
  · rw [calculateTargetFileFullPath_eq]
    simp only [calculateTargetFileFullPathPure, hext]
    rw [show ("" : String).data.length = 0 from rfl]
    rw [show ∀ b : String, jsSliceZeroNeg b 0 = "" from fun _ => rfl]
    rw [replacePure_empty m hm, hid]
    rw [string_append_empty, string_append_empty]

theorem claim_C9_witness :
    jsExtname (jsBasename (jsNormalize ("/repo" ++ "/" ++ "Makefile"))) = "" ∧
    calculateTargetFileFullPath "/repo" "Makefile" [("custom-element", "foo-bar")]
      = some (jsDirname (jsNormalize ("/repo" ++ "/" ++ "Makefile")) ++ "/") :=
  ⟨by decide,
   (claim_C9 "/repo" "Makefile" [("custom-element", "foo-bar")]
     (by decide) (by decide)).2⟩

/-- C10: in the dash-case derivation, every uppercase ASCII letter is
replaced by its own hyphen and lowercase form individually, so a run of
consecutive capitals yields one hyphenated single-letter segment per
capital and consecutive capitals are never grouped: XMLHttp becomes
x-m-l-http with segments x, m, l, http. -/
theorem claim_C10 :
    (∀ pre us post : List Char, (∀ c ∈ us, c ∈ upperAsciiChars) →
        dashExpand (pre ++ us ++ post)
          = dashExpand pre ++ (us.map (fun c => ['-', jsCharLower c])).flatten
              ++ dashExpand post) ∧
    dashCaseOf "XMLHttp" = "x-m-l-http" ∧
    splitOnDash (dashCaseOf "XMLHttp").data = [['x'], ['m'], ['l'], ['h', 't', 't', 'p']] := by
  refine ⟨?_, by decide, by decide⟩
  intro pre us post h
  rw [dashExpand_append, dashExpand_append, dashExpand_upperRun us h]

theorem claim_C10_witness :
    (∀ c ∈ (['B', 'C'] : List Char), c ∈ upperAsciiChars) ∧
    dashExpand (['a'] ++ ['B', 'C'] ++ ['d'])
      = dashExpand ['a'] ++ ((['B', 'C'].map (fun c => ['-', jsCharLower c])).flatten)
          ++ dashExpand ['d'] :=
  ⟨by decide, claim_C10.1 ['a'] ['B', 'C'] ['d'] (by decide)⟩

end CustomElementSetup
